import Mathlib

/-!
# Verification of the gen2-to-gen3 conversion core of obs_base

Shallow embedding of two source files:

* python/lsst/obs/base/gen2to3/calibRepoConverter.py
  - CalibRepoConverter._queryGen2CalibRegistry (lines 90-116)
  - CalibRepoConverter._finish (lines 118-257), in particular the
    validity-interval correction loop (lines 208-253) and the commit (255-257)
* python/lsst/obs/base/gen2to3/repoWalker/scanner.py
  - PathElementHandler (rank, __lt__) and DirectoryScanner (add, scan)

Modelling conventions:
* astropy TAI times are modelled as rationals, measured in days (the source
  uses astropy.time.TimeDelta with format jd, i.e. days, for both the one-day
  shift and the fuzzy threshold).  Time arithmetic in the source is exact for
  the comparisons that matter here, so ℚ is faithful.
* Datasets refs (lsst.daf.butler DatasetRef) are opaque handles, modelled as ℕ.
* Python dicts that are built by keyed appends (defaultdict(list)) are
  modelled as insertion-ordered association lists, which is exactly Python's
  dict iteration semantics.
* Python sets of message strings are modelled as lists with membership-checked
  insertion: the only facts used about them are membership and absence of
  duplicates, which this models exactly.
-/

namespace ObsBase

/-- lsst.daf.butler Timespan, restricted to the two boundary fields the
converter uses.  The fields are called begin/end in the source; end is a Lean
keyword, hence the underscores.  Value equality and hashing by the two
boundaries is exactly how the source uses Timespan as a dict key. -/
structure Timespan where
  begin_ : ℚ
  end_ : ℚ
deriving DecidableEq, Repr

/-- calibRepoConverter.py line 134: astropy.time.TimeDelta(1, format="jd"),
one day. -/
def day : ℚ := 1

/-- calibRepoConverter.py line 209: astropy.time.TimeDelta(1.001,
format="jd"), "A day with a bit of fuzz for comparison". -/
def fuzzy_day : ℚ := 1001 / 1000

/-- calibRepoConverter.py line 227: the informational message recorded when a
gap between timespans is closed.  Astropy time formatting is abstracted to
the printing of the rational day values; what matters for the claims is that
the text is a function of the two boundary values. -/
def gapMsg (prevEnd curBegin : ℚ) : String :=
  "Calibration validity gap closed for " ++ toString (repr prevEnd)
    ++ " to " ++ toString (repr curBegin)

/-- calibRepoConverter.py lines 231-232: the warning recorded when an overlap
is removed; abs(delta).to(u.s) converts the day-valued delta to seconds. -/
def overlapMsg (delta curBegin prevEnd : ℚ) : String :=
  "Calibration validity overlap of " ++ toString (repr (|delta| * 86400))
    ++ " s removed for period " ++ toString (repr curBegin)
    ++ " to " ++ toString (repr prevEnd)

/-- calibRepoConverter.py lines 220-248: the body of the per-group correction
loop.  The first argument is (timespan_prev, ref_prev); the list holds the
remaining sorted (timespan, ref) pairs.  Returns the (timespan_prev, ref_prev)
pairs appended to correctedRefsByTimespan, in append order, together with the
info and warn message occurrences in the order the source adds them to the
global sets. -/
def correctLoop (prev : Timespan × ℕ) :
    List (Timespan × ℕ) → List (Timespan × ℕ) × List String × List String
  | [] => ([prev], [], [])
  | cur :: rest =>
    let delta := cur.1.begin_ - prev.1.end_
    let res := correctLoop cur rest
    if |delta| < fuzzy_day then
      -- lines 237-238: the previous timespan is adjusted to end at the
      -- current begin, in both the gap and the overlap case
      if delta > 0 then
        ((Timespan.mk prev.1.begin_ cur.1.begin_, prev.2) :: res.1,
          gapMsg prev.1.end_ cur.1.begin_ :: res.2.1, res.2.2)
      else
        ((Timespan.mk prev.1.begin_ cur.1.begin_, prev.2) :: res.1,
          res.2.1, overlapMsg delta cur.1.begin_ prev.1.end_ :: res.2.2)
    else
      (prev :: res.1, res.2.1, res.2.2)

/-- The corrected (timespan, ref) pairs emitted for one sorted group of
timespansByDataId (calibRepoConverter.py lines 219-248).  The source pops the
first element as the seed of the loop; groups are always nonempty in the
source (they are created by appending), so the [] case is unreachable there. -/
def correctGroup : List (Timespan × ℕ) → List (Timespan × ℕ)
  | [] => []
  | p :: rest => (correctLoop p rest).1

/-- How one loop iteration rewrites the previous pair before emitting it:
lines 223-238 of calibRepoConverter.py. -/
def adjustPrev (prev cur : Timespan × ℕ) : Timespan × ℕ :=
  if |cur.1.begin_ - prev.1.end_| < fuzzy_day then
    (Timespan.mk prev.1.begin_ cur.1.begin_, prev.2)
  else prev

theorem adjustPrev_snd (prev cur : Timespan × ℕ) : (adjustPrev prev cur).2 = prev.2 := by
  unfold adjustPrev; split <;> rfl

theorem correctLoop_fst_nil (p : Timespan × ℕ) : (correctLoop p []).1 = [p] := rfl

theorem correctLoop_fst_cons (p c : Timespan × ℕ) (rest : List (Timespan × ℕ)) :
    (correctLoop p (c :: rest)).1 = adjustPrev p c :: (correctLoop c rest).1 := by
  simp only [correctLoop, adjustPrev]
  by_cases h : |c.1.begin_ - p.1.end_| < fuzzy_day
  · by_cases h2 : c.1.begin_ - p.1.end_ > 0 <;> simp [h, h2]
  · simp [h]

theorem correctGroup_single (p : Timespan × ℕ) : correctGroup [p] = [p] := rfl

theorem correctGroup_cons_cons (p c : Timespan × ℕ) (rest : List (Timespan × ℕ)) :
    correctGroup (p :: c :: rest) = adjustPrev p c :: correctGroup (c :: rest) := by
  simp [correctGroup, correctLoop_fst_cons]

/-- Claim C2: for a group holding two adjacent intervals [t0, t1) and
[t1 + d, t2) with 0 < d < fuzzy_day (one day plus fuzz, threshold 1.001
days), the correction step closes the gap exactly: it produces [t0, t1 + d)
for the first interval and leaves [t1 + d, t2) unchanged, never overshooting
the later interval's begin. -/
theorem gap_closure (t0 t1 t2 d : ℚ) (r1 r2 : ℕ)
    (hpos : 0 < d) (hlt : d < fuzzy_day) :
    correctGroup [(Timespan.mk t0 t1, r1), (Timespan.mk (t1 + d) t2, r2)]
      = [(Timespan.mk t0 (t1 + d), r1), (Timespan.mk (t1 + d) t2, r2)] := by
  rw [correctGroup_cons_cons, correctGroup_single]
  have hd : (Timespan.mk (t1 + d) t2).begin_ - (Timespan.mk t0 t1).end_ = d := by
    simp
  rw [adjustPrev, hd, abs_of_pos hpos, if_pos hlt]

theorem gap_closure_witness :
    0 < (1 / 2 : ℚ) ∧ (1 / 2 : ℚ) < fuzzy_day ∧
      correctGroup [(Timespan.mk 0 1, 1), (Timespan.mk (1 + 1 / 2) 3, 2)]
        = [(Timespan.mk 0 (1 + 1 / 2), 1), (Timespan.mk (1 + 1 / 2) 3, 2)] :=
  ⟨by norm_num, by norm_num [fuzzy_day],
    gap_closure 0 1 3 (1 / 2) 1 2 (by norm_num) (by norm_num [fuzzy_day])⟩

/-- Claim C3: for a group holding [t0, t2) followed by [t1, t3) with t1 < t2
(an overlap) and t2 - t1 < fuzzy_day, the correction step trims the earlier
interval's end to the later interval's begin, producing [t0, t1) and leaving
[t1, t3) untouched; with the group sorted by start (t0 ≤ t1) and the later
interval well-formed (t1 ≤ t3), neither corrected interval has its end before
its begin. -/
theorem overlap_trim (t0 t1 t2 t3 : ℚ) (r1 r2 : ℕ)
    (hover : t1 < t2) (hfuzz : t2 - t1 < fuzzy_day)
    (hsorted : t0 ≤ t1) (hvalid : t1 ≤ t3) :
    correctGroup [(Timespan.mk t0 t2, r1), (Timespan.mk t1 t3, r2)]
        = [(Timespan.mk t0 t1, r1), (Timespan.mk t1 t3, r2)] ∧
      (Timespan.mk t0 t1).begin_ ≤ (Timespan.mk t0 t1).end_ ∧
      (Timespan.mk t1 t3).begin_ ≤ (Timespan.mk t1 t3).end_ := by
  refine ⟨?_, hsorted, hvalid⟩
  rw [correctGroup_cons_cons, correctGroup_single]
  have hd : (Timespan.mk t1 t3).begin_ - (Timespan.mk t0 t2).end_ = t1 - t2 := by
    simp
  have habs : |t1 - t2| = t2 - t1 := by
    rw [abs_sub_comm, abs_of_pos (by linarith)]
  rw [adjustPrev, hd, habs, if_pos hfuzz]

theorem overlap_trim_witness :
    (1 : ℚ) < 3 / 2 ∧ (3 / 2 : ℚ) - 1 < fuzzy_day ∧ (0 : ℚ) ≤ 1 ∧ (1 : ℚ) ≤ 2 ∧
      (correctGroup [(Timespan.mk 0 (3 / 2), 1), (Timespan.mk 1 2, 2)]
          = [(Timespan.mk 0 1, 1), (Timespan.mk 1 2, 2)] ∧
        (Timespan.mk (0 : ℚ) 1).begin_ ≤ (Timespan.mk (0 : ℚ) 1).end_ ∧
        (Timespan.mk (1 : ℚ) 2).begin_ ≤ (Timespan.mk (1 : ℚ) 2).end_) :=
  ⟨by norm_num, by norm_num [fuzzy_day], by norm_num, by norm_num,
    overlap_trim 0 1 (3 / 2) 2 1 2 (by norm_num) (by norm_num [fuzzy_day])
      (by norm_num) (by norm_num)⟩

theorem correctGroup_getElem?_adj (l : List (Timespan × ℕ)) (i : ℕ) (p q : Timespan × ℕ)
    (hp : l[i]? = some p) (hq : l[i + 1]? = some q) :
    (correctGroup l)[i]? = some (adjustPrev p q) := by
  induction l generalizing i with
  | nil => simp at hp
  | cons a tl ih =>
    cases i with
    | zero =>
      simp only [List.getElem?_cons_zero, Option.some.injEq] at hp
      cases tl with
      | nil => simp at hq
      | cons c tl2 =>
        simp only [List.getElem?_cons_succ, List.getElem?_cons_zero,
          Option.some.injEq] at hq
        subst hp; subst hq
        rw [correctGroup_cons_cons]
        simp
    | succ j =>
      simp only [List.getElem?_cons_succ] at hp hq
      cases tl with
      | nil => simp at hp
      | cons c tl2 =>
        rw [correctGroup_cons_cons]
        simpa using ih j hp hq

theorem correctGroup_getElem?_last (l : List (Timespan × ℕ)) (i : ℕ) (p : Timespan × ℕ)
    (hp : l[i]? = some p) (hq : l[i + 1]? = none) :
    (correctGroup l)[i]? = some p := by
  induction l generalizing i with
  | nil => simp at hp
  | cons a tl ih =>
    cases i with
    | zero =>
      simp only [List.getElem?_cons_zero, Option.some.injEq] at hp
      subst hp
      cases tl with
      | nil => rw [correctGroup_single]; simp
      | cons c tl2 => simp at hq
    | succ j =>
      simp only [List.getElem?_cons_succ] at hp hq
      cases tl with
      | nil => simp at hp
      | cons c tl2 =>
        rw [correctGroup_cons_cons]
        simpa using ih j hp hq

/-- Claim C4 fails as stated on the code: in the group
[0, 10), [20, 30), [30.5, 40) the consecutive pair ([0,10), [20,30)) has a
gap of 10 days, at least fuzzy_day, yet the correction step emits the later
interval of that pair as [20, 30.5) rather than unmodified, because that
interval is in turn adjusted against its own successor [30.5, 40). -/
theorem large_gap_counterexample :
    fuzzy_day ≤ |(Timespan.mk (20 : ℚ) 30).begin_ - (Timespan.mk (0 : ℚ) 10).end_| ∧
      (correctGroup [(Timespan.mk 0 10, 1), (Timespan.mk 20 30, 2),
          (Timespan.mk (61 / 2) 40, 3)])[1]?
        ≠ some (Timespan.mk 20 30, 2) := by
  constructor
  · norm_num [fuzzy_day]
  · rw [correctGroup_cons_cons, correctGroup_cons_cons, correctGroup_single]
    have h1 : adjustPrev (Timespan.mk (20 : ℚ) 30, 2) (Timespan.mk (61 / 2) 40, 3)
        = (Timespan.mk 20 (61 / 2), 2) := by
      rw [adjustPrev, if_pos (by norm_num [fuzzy_day, abs_lt])]
    rw [h1]
    simp only [List.getElem?_cons_succ, List.getElem?_cons_zero, ne_eq,
      Option.some.injEq, Prod.mk.injEq, Timespan.mk.injEq]
    norm_num

/-- Claim C4 (amended): for every consecutive pair of a sorted group whose
gap or overlap magnitude is at least fuzzy_day (1 day + fuzz), the earlier
interval of the pair is emitted exactly as it was input, and a two-interval
group consisting of such a pair passes through fully unmodified; in a longer
group the later interval of the pair may still be adjusted against its own
successor. -/
theorem large_gap_no_adjust (l : List (Timespan × ℕ)) (i : ℕ) (p q : Timespan × ℕ)
    (hp : l[i]? = some p) (hq : l[i + 1]? = some q)
    (hbig : fuzzy_day ≤ |q.1.begin_ - p.1.end_|) :
    (correctGroup l)[i]? = some p ∧ correctGroup [p, q] = [p, q] := by
  have hadj : adjustPrev p q = p := by
    rw [adjustPrev, if_neg (not_lt.mpr hbig)]
  constructor
  · rw [correctGroup_getElem?_adj l i p q hp hq, hadj]
  · rw [correctGroup_cons_cons, correctGroup_single, hadj]

theorem large_gap_no_adjust_witness :
    [(Timespan.mk (0 : ℚ) 10, 1), (Timespan.mk (20 : ℚ) 30, 2)][0]?
        = some (Timespan.mk (0 : ℚ) 10, 1) ∧
      [(Timespan.mk (0 : ℚ) 10, 1), (Timespan.mk (20 : ℚ) 30, 2)][0 + 1]?
        = some (Timespan.mk (20 : ℚ) 30, 2) ∧
      fuzzy_day ≤ |(Timespan.mk (20 : ℚ) 30).begin_ - (Timespan.mk (0 : ℚ) 10).end_| ∧
      ((correctGroup [(Timespan.mk 0 10, 1), (Timespan.mk 20 30, 2)])[0]?
          = some (Timespan.mk (0 : ℚ) 10, 1) ∧
        correctGroup [(Timespan.mk (0 : ℚ) 10, 1), (Timespan.mk (20 : ℚ) 30, 2)]
          = [(Timespan.mk (0 : ℚ) 10, 1), (Timespan.mk (20 : ℚ) 30, 2)]) :=
  ⟨rfl, rfl, by norm_num [fuzzy_day],
    large_gap_no_adjust [(Timespan.mk 0 10, 1), (Timespan.mk 20 30, 2)] 0
      (Timespan.mk 0 10, 1) (Timespan.mk 20 30, 2) rfl rfl
      (by norm_num [fuzzy_day])⟩

/-- Claim C5 fails as stated on the code: the set [0, 1), [1.5, 2.5) is
pairwise disjoint and nowhere adjacent (so it is "already corrected" in the
claim's sense), yet re-running the correction step closes the 0.5-day gap
and yields a different interval set. -/
theorem corrected_rerun_counterexample :
    (Timespan.mk (0 : ℚ) 1).end_ ≤ (Timespan.mk (3 / 2 : ℚ) (5 / 2)).begin_ ∧
      (Timespan.mk (0 : ℚ) 1).end_ ≠ (Timespan.mk (3 / 2 : ℚ) (5 / 2)).begin_ ∧
      correctGroup [(Timespan.mk 0 1, 1), (Timespan.mk (3 / 2) (5 / 2), 2)]
        ≠ [(Timespan.mk 0 1, 1), (Timespan.mk (3 / 2) (5 / 2), 2)] := by
  refine ⟨by norm_num, by norm_num, ?_⟩
  rw [correctGroup_cons_cons, correctGroup_single]
  have h1 : adjustPrev (Timespan.mk (0 : ℚ) 1, 1) (Timespan.mk (3 / 2 : ℚ) (5 / 2), 2)
      = (Timespan.mk 0 (3 / 2), 1) := by
    rw [adjustPrev, if_pos (by norm_num [fuzzy_day, abs_lt])]
  rw [h1]
  simp only [ne_eq, List.cons.injEq, Prod.mk.injEq, Timespan.mk.injEq]
  norm_num

/-- Claim C5 (amended): for every interval set whose consecutive intervals
are either exactly contiguous or separated by a gap of at least fuzzy_day
(1 day + fuzz) — as holds for the correction step's own output — re-running
the correction step yields the identical interval set: correction is
idempotent on such sets. -/
theorem corrected_fixpoint (l : List (Timespan × ℕ))
    (h : l.Chain' fun p q => q.1.begin_ = p.1.end_ ∨ p.1.end_ + fuzzy_day ≤ q.1.begin_) :
    correctGroup l = l := by
  induction l with
  | nil => rfl
  | cons p tl ih =>
    cases tl with
    | nil => exact correctGroup_single p
    | cons c tl2 =>
      rw [List.chain'_cons] at h
      rw [correctGroup_cons_cons, ih h.2]
      rcases h.1 with heq | hfar
      · have : adjustPrev p c = p := by
          rw [adjustPrev, heq, if_pos (by norm_num [fuzzy_day])]
        rw [this]
      · have : adjustPrev p c = p := by
          rw [adjustPrev,
            if_neg (not_lt.mpr (le_trans (by linarith) (le_abs_self _)))]
        rw [this]

theorem corrected_fixpoint_witness :
    List.Chain'
        (fun p q : Timespan × ℕ =>
          q.1.begin_ = p.1.end_ ∨ p.1.end_ + fuzzy_day ≤ q.1.begin_)
        [(Timespan.mk 0 1, 1), (Timespan.mk 1 2, 2), (Timespan.mk 10 11, 3)] ∧
      correctGroup [(Timespan.mk 0 1, 1), (Timespan.mk 1 2, 2), (Timespan.mk 10 11, 3)]
        = [(Timespan.mk 0 1, 1), (Timespan.mk 1 2, 2), (Timespan.mk 10 11, 3)] :=
  ⟨by norm_num [List.chain'_cons, fuzzy_day],
    corrected_fixpoint _ (by norm_num [List.chain'_cons, fuzzy_day])⟩

theorem correctGroup_map_snd (l : List (Timespan × ℕ)) :
    (correctGroup l).map Prod.snd = l.map Prod.snd := by
  induction l with
  | nil => rfl
  | cons p tl ih =>
    cases tl with
    | nil => rfl
    | cons c tl2 =>
      rw [correctGroup_cons_cons]
      simp [adjustPrev_snd, ih]

/-- calibRepoConverter.py line 215 and 228/233: the global info_messages and
warn_messages sets, modelled as lists with membership-checked insertion. -/
def insertIfAbsent (s : List String) (m : String) : List String :=
  if m ∈ s then s else s ++ [m]

theorem nodup_insertIfAbsent (s : List String) (m : String) (h : s.Nodup) :
    (insertIfAbsent s m).Nodup := by
  unfold insertIfAbsent; split
  · exact h
  · next hm => simp [List.nodup_append, h, hm]

theorem nodup_foldl_insertIfAbsent (msgs : List String) (s : List String)
    (h : s.Nodup) : (msgs.foldl insertIfAbsent s).Nodup := by
  induction msgs generalizing s with
  | nil => exact h
  | cons m tl ih => exact ih _ (nodup_insertIfAbsent s m h)

/-- calibRepoConverter.py lines 210 and 241/248: correctedRefsByTimespan is a
defaultdict(list); appending a ref under a timespan key either extends that
key's list or adds the key at the end, preserving dict insertion order. -/
def insertRef : List (Timespan × List ℕ) → Timespan × ℕ → List (Timespan × List ℕ)
  | [], pr => [(pr.1, [pr.2])]
  | (t, rs) :: tl, pr =>
    if t = pr.1 then (t, rs ++ [pr.2]) :: tl
    else (t, rs) :: insertRef tl pr

/-- The dict-of-lists keyed by corrected Timespan built by the loop's append
operations, in append order. -/
def refsByTimespanDict (emissions : List (Timespan × ℕ)) : List (Timespan × List ℕ) :=
  emissions.foldl insertRef []

/-- All refs passed to Registry.certify, one call per distinct corrected
timespan (calibRepoConverter.py lines 255-257), concatenated. -/
def refsOfDict (d : List (Timespan × List ℕ)) : List ℕ := (d.map Prod.snd).flatten

theorem refsOfDict_cons (t : Timespan) (rs : List ℕ) (tl : List (Timespan × List ℕ)) :
    refsOfDict ((t, rs) :: tl) = rs ++ refsOfDict tl := by
  simp [refsOfDict]

theorem refsOfDict_insertRef (d : List (Timespan × List ℕ)) (pr : Timespan × ℕ) :
    List.Perm (refsOfDict (insertRef d pr)) (refsOfDict d ++ [pr.2]) := by
  induction d with
  | nil => simp [insertRef, refsOfDict]
  | cons hd tl ih =>
    obtain ⟨t, rs⟩ := hd
    by_cases h : t = pr.1
    · rw [insertRef, if_pos h, refsOfDict_cons, refsOfDict_cons,
        List.append_assoc, List.append_assoc]
      exact List.Perm.append_left rs List.perm_append_comm
    · rw [insertRef, if_neg h, refsOfDict_cons, refsOfDict_cons,
        List.append_assoc]
      exact List.Perm.append_left rs ih

theorem refsOfDict_foldl (l : List (Timespan × ℕ)) (d : List (Timespan × List ℕ)) :
    List.Perm (refsOfDict (l.foldl insertRef d)) (refsOfDict d ++ l.map Prod.snd) := by
  induction l generalizing d with
  | nil => simp
  | cons pr tl ih =>
    simp only [List.foldl_cons, List.map_cons]
    have h2 := (ih (insertRef d pr)).trans
      ((refsOfDict_insertRef d pr).append_right (tl.map Prod.snd))
    rw [List.append_assoc] at h2
    simpa using h2

/-- One iteration of the loop over timespansByDataId.values()
(calibRepoConverter.py lines 217-248): run the correction loop on one sorted
group, appending its emitted pairs and adding its messages to the global
sets.  The source seeds the loop by popping the group's first element; groups
are never empty there, so the [] case is unreachable in the source. -/
def processStep (acc : List (Timespan × ℕ) × List String × List String)
    (g : List (Timespan × ℕ)) : List (Timespan × ℕ) × List String × List String :=
  match g with
  | [] => acc
  | p :: rest =>
    let res := correctLoop p rest
    (acc.1 ++ res.1, res.2.1.foldl insertIfAbsent acc.2.1,
      res.2.2.foldl insertIfAbsent acc.2.2)

/-- The whole loop over timespansByDataId.values(): all emitted (timespan,
ref) pairs in order, plus the deduplicated info and warn message sets. -/
def processGroups (groups : List (List (Timespan × ℕ))) :
    List (Timespan × ℕ) × List String × List String :=
  groups.foldl processStep ([], [], [])

theorem processStep_fst (acc : List (Timespan × ℕ) × List String × List String)
    (g : List (Timespan × ℕ)) : (processStep acc g).1 = acc.1 ++ correctGroup g := by
  cases g with
  | nil => simp [processStep, correctGroup]
  | cons p rest => rfl

theorem processGroups_fst_aux (groups : List (List (Timespan × ℕ)))
    (acc : List (Timespan × ℕ) × List String × List String) :
    (groups.foldl processStep acc).1 = acc.1 ++ (groups.map correctGroup).flatten := by
  induction groups generalizing acc with
  | nil => simp
  | cons g gs ih =>
    simp only [List.foldl_cons, List.map_cons, List.flatten_cons]
    rw [ih, processStep_fst, List.append_assoc]

theorem processGroups_fst (groups : List (List (Timespan × ℕ))) :
    (processGroups groups).1 = (groups.map correctGroup).flatten := by
  simpa using processGroups_fst_aux groups ([], [], [])

theorem join_map_correctGroup_snd (groups : List (List (Timespan × ℕ))) :
    ((groups.map correctGroup).flatten).map Prod.snd = (groups.flatten).map Prod.snd := by
  induction groups with
  | nil => rfl
  | cons g gs ih =>
    simp only [List.map_cons, List.flatten_cons, List.map_append,
      correctGroup_map_snd, ih]

/-- Claim C6: each (interval, record) pair entering the correction step is
emitted into the corrected output exactly once (the emitted records are
exactly the input records, in order and with multiplicity) and certified
exactly once (the concatenation of the per-timespan certify calls is a
permutation of the input records). -/
theorem commit_completeness (groups : List (List (Timespan × ℕ))) :
    ((processGroups groups).1).map Prod.snd = (groups.flatten).map Prod.snd ∧
      List.Perm (refsOfDict (refsByTimespanDict (processGroups groups).1))
        ((groups.flatten).map Prod.snd) := by
  have h1 : ((processGroups groups).1).map Prod.snd = (groups.flatten).map Prod.snd := by
    rw [processGroups_fst]; exact join_map_correctGroup_snd groups
  refine ⟨h1, ?_⟩
  have h2 := refsOfDict_foldl ((processGroups groups).1) []
  simp only [refsOfDict, List.map_nil, List.flatten_nil, List.nil_append] at h2
  rw [h1] at h2
  exact h2

/-- calibRepoConverter.py lines 250-253: messages are emitted with
sorted(...) over the deduplicated sets. -/
def sortStrings (l : List String) : List String := l.insertionSort (· ≤ ·)

theorem processStep_nodup_info (acc : List (Timespan × ℕ) × List String × List String)
    (g : List (Timespan × ℕ)) (h : acc.2.1.Nodup) : ((processStep acc g).2.1).Nodup := by
  cases g with
  | nil => exact h
  | cons p rest => exact nodup_foldl_insertIfAbsent _ _ h

theorem processStep_nodup_warn (acc : List (Timespan × ℕ) × List String × List String)
    (g : List (Timespan × ℕ)) (h : acc.2.2.Nodup) : ((processStep acc g).2.2).Nodup := by
  cases g with
  | nil => exact h
  | cons p rest => exact nodup_foldl_insertIfAbsent _ _ h

theorem processGroups_nodup_aux (groups : List (List (Timespan × ℕ)))
    (acc : List (Timespan × ℕ) × List String × List String)
    (h1 : acc.2.1.Nodup) (h2 : acc.2.2.Nodup) :
    ((groups.foldl processStep acc).2.1).Nodup ∧
      ((groups.foldl processStep acc).2.2).Nodup := by
  induction groups generalizing acc with
  | nil => exact ⟨h1, h2⟩
  | cons g gs ih =>
    exact ih _ (processStep_nodup_info acc g h1) (processStep_nodup_warn acc g h2)

/-- Claim C9: after all groups have been processed, the informational and the
warning messages are each emitted sorted lexicographically, without
duplicates (a message text produced by several identifier groups is logged
exactly once), and the emitted sequences hold exactly the texts in the
deduplicated global sets. -/
theorem message_dedup_sorted (groups : List (List (Timespan × ℕ))) :
    (sortStrings (processGroups groups).2.1).Sorted (· ≤ ·) ∧
      (sortStrings (processGroups groups).2.1).Nodup ∧
      List.Perm (sortStrings (processGroups groups).2.1) (processGroups groups).2.1 ∧
      (sortStrings (processGroups groups).2.2).Sorted (· ≤ ·) ∧
      (sortStrings (processGroups groups).2.2).Nodup ∧
      List.Perm (sortStrings (processGroups groups).2.2) (processGroups groups).2.2 := by
  have hbase := processGroups_nodup_aux groups ([], [], []) List.nodup_nil List.nodup_nil
  refine ⟨List.sorted_insertionSort _ _, ?_, List.perm_insertionSort _ _,
    List.sorted_insertionSort _ _, ?_, List.perm_insertionSort _ _⟩
  · exact (List.perm_insertionSort _ _).nodup_iff.mpr hbase.1
  · exact (List.perm_insertionSort _ _).nodup_iff.mpr hbase.2

/-- The operations _finish (calibRepoConverter.py lines 118-257) performs on
its collaborators, in order: raising when the registry file is missing,
opening/reading the gen2 registry, logging, and certifying. -/
inductive FinishEffect where
  | raiseNoRegistry
  | openRegistry
  | logInfoMsg (msg : String)
  | logWarnMsg (msg : String)
  | certifyRefs (t : Timespan) (refs : List ℕ)

/-- calibRepoConverter.py lines 118-257 as an effect trace.  registryExists
models os.path.exists(os.path.flatten(root, "calibRegistry.sqlite3")) (line
125); when it is false the RuntimeError of line 126 is raised before the
database is opened, before any row is read and before any certify call.  The
groups argument is timespansByDataId.values(): the (timespan, ref) pairs
obtained by joining discovered datasets to registry rows, grouped by
(dataId, datasetType.name) and sorted. -/
def finishTrace (registryExists : Bool) (groups : List (List (Timespan × ℕ))) :
    List FinishEffect :=
  if registryExists then
    let res := processGroups groups
    FinishEffect.openRegistry ::
      ((sortStrings res.2.1).map FinishEffect.logInfoMsg ++
        (sortStrings res.2.2).map FinishEffect.logWarnMsg ++
        (refsByTimespanDict res.1).map fun x => FinishEffect.certifyRefs x.1 x.2)
  else [FinishEffect.raiseNoRegistry]

/-- Claim C7: when the legacy calibration registry database file does not
exist under the repository root, _finish raises immediately: its whole
effect trace is the single raise — the registry is never opened, no row is
read, and no certify call is made, so the destination store is unchanged. -/
theorem missing_registry_aborts (groups : List (List (Timespan × ℕ))) :
    finishTrace false groups = [FinishEffect.raiseNoRegistry] := rfl

/-- The Python exceptions relevant to _queryGen2CalibRegistry: indexing None
raises TypeError, indexing an empty list raises IndexError, and a failed
query raises sqlite3.OperationalError (which the source catches). -/
inductive PyExn where
  | typeErrorNoneNotSubscriptable
  | indexErrorOutOfRange
deriving DecidableEq, Repr

/-- The SQL text built at calibRepoConverter.py line 109. -/
def queryText (fields : List String) (table : String) : String :=
  "SELECT DISTINCT " ++ String.intercalate ", " fields ++ " FROM " ++ table
    ++ " WHERE calibDate = ?;"

/-- The warning logged at calibRepoConverter.py lines 113-114 when the query
raises an OperationalError. -/
def queryFailMsg (datasetTypeName root table err : String) : String :=
  "Could not extract calibration ranges for " ++ datasetTypeName ++ " in "
    ++ root ++ " from table " ++ table ++ ": " ++ err

/-- CalibRepoConverter._queryGen2CalibRegistry (calibRepoConverter.py lines
90-116).  fields is the column list built at lines 93-102 (a function of the
dataset type's dimensions); tables is self.mapper.mappings[name].tables
(line 103); execute models db.execute with the calibDate bound parameter,
returning either rows (opaque handles) or an OperationalError message.
Returns the warn messages logged and the rows yielded, or the Python
exception the body raises.

Lines 104-108 of the source check "tables is None or len(tables) == 0" and
then call self.task.log.warn(..., tables[0]): evaluating tables[0] in the
argument list raises TypeError when tables is None and IndexError when it is
empty, before any logging happens; that control flow is embedded as the two
error branches below. -/
def queryGen2CalibRegistry (datasetTypeName root : String) (fields : List String)
    (tables : Option (List String))
    (execute : String → String → Except String (List ℕ)) (calibDate : String) :
    Except PyExn (List String × List ℕ) :=
  match tables with
  | none => Except.error PyExn.typeErrorNoneNotSubscriptable
  | some [] => Except.error PyExn.indexErrorOutOfRange
  | some (t0 :: _) =>
    match execute (queryText fields t0) calibDate with
    | Except.error e =>
      Except.ok ([queryFailMsg datasetTypeName root t0 e], [])
    | Except.ok rows => Except.ok ([], rows)

/-- Claim C1 fails on the code (code bug): when the mapper configuration has
no underlying table (tables is None, or the empty list), the source intends
to log a warning and yield zero rows, but the warning call at line 105-107
passes tables[0] as a format argument while tables is None or empty, so the
branch raises TypeError (respectively IndexError) instead of logging and
returning normally.  Only the operational-error branch behaves as the claim
says. -/
theorem query_no_table_raises (datasetTypeName root calibDate : String)
    (fields : List String)
    (execute : String → String → Except String (List ℕ)) :
    queryGen2CalibRegistry datasetTypeName root fields none execute calibDate
        = Except.error PyExn.typeErrorNoneNotSubscriptable ∧
      queryGen2CalibRegistry datasetTypeName root fields (some []) execute calibDate
        = Except.error PyExn.indexErrorOutOfRange :=
  ⟨rfl, rfl⟩

/-- repoWalker/scanner.py PathElementHandler, restricted to what
DirectoryScanner uses: the pool selector isForFiles (line 65), the dispatch
rank (line 106, zero for handlers that match only a constant path element),
and the boolean outcome of __call__ (lines 76-102).  __call__ receives
(path, name, datasets, predicate); within one directory scan its outcome is
a function of the entry name, which is how it is modelled here — the
accumulator mutation performed by a successful handler is outside the claims
about dispatch order and diagnostics. -/
structure PathElementHandler where
  isForFiles : Bool
  rank : ℕ
  call : String → Bool

/-- bisect.insort (scanner.py lines 190-192) under the PathElementHandler
__lt__ of lines 140-144 (comparison by rank): insert keeping the list
sorted, after any existing handlers of equal rank (insort is insort_right). -/
def insort (h : PathElementHandler) :
    List PathElementHandler → List PathElementHandler
  | [] => [h]
  | h2 :: tl => if h.rank < h2.rank then h :: h2 :: tl else h2 :: insort h tl

/-- DirectoryScanner's two handler pools (scanner.py lines 171-178). -/
structure DirectoryScanner where
  files : List PathElementHandler
  subdirectories : List PathElementHandler

/-- DirectoryScanner.add (scanner.py lines 180-192). -/
def DirectoryScanner.add (sc : DirectoryScanner) (h : PathElementHandler) :
    DirectoryScanner :=
  if h.isForFiles then { sc with files := insort h sc.files }
  else { sc with subdirectories := insort h sc.subdirectories }

/-- A scanner built by adding handlers, in any order, to a fresh scanner. -/
def buildScanner (hs : List PathElementHandler) : DirectoryScanner :=
  hs.foldl DirectoryScanner.add ⟨[], []⟩

/-- The kind of an os.scandir entry as tested at scanner.py lines 219-224:
entry.is_file(), entry.is_dir(), or anything else. -/
inductive EntryKind where
  | file
  | dir
  | other
deriving DecidableEq, Repr

/-- One os.scandir entry. -/
structure Entry where
  name : String
  kind : EntryKind

/-- The handler pool scan selects for an entry (lines 219-224); entries that
are neither files nor directories select no pool (the loop continues). -/
def poolFor (sc : DirectoryScanner) : EntryKind → List PathElementHandler
  | EntryKind.file => sc.files
  | EntryKind.dir => sc.subdirectories
  | EntryKind.other => []

/-- What the scan loop does with one entry: hands it to the first matching
handler of the selected pool, records it as unrecognized when every handler
returns False, or skips it before any handler is tried when it is neither a
file nor a directory. -/
inductive ScanOutcome where
  | handled (h : PathElementHandler)
  | unrecognizedEntry
  | skipped

/-- scanner.py lines 218-229: the body of the scan loop for one entry.  The
for/else over handlers is List.find?: handlers are tried in pool order and
trying stops at the first one that returns True. -/
def scanEntry (sc : DirectoryScanner) (e : Entry) : ScanOutcome :=
  match e.kind with
  | EntryKind.other => ScanOutcome.skipped
  | EntryKind.file =>
    match sc.files.find? (fun h => h.call e.name) with
    | some h => ScanOutcome.handled h
    | none => ScanOutcome.unrecognizedEntry
  | EntryKind.dir =>
    match sc.subdirectories.find? (fun h => h.call e.name) with
    | some h => ScanOutcome.handled h
    | none => ScanOutcome.unrecognizedEntry

/-- scanner.py lines 217-229: the names appended to the unrecognized list,
in directory order. -/
def scanUnrecognized (sc : DirectoryScanner) : List Entry → List String
  | [] => []
  | e :: rest =>
    match scanEntry sc e with
    | ScanOutcome.unrecognizedEntry => e.name :: scanUnrecognized sc rest
    | _ => scanUnrecognized sc rest

/-- scanner.py lines 230-231: the single end-of-scan diagnostic, emitted only
when the unrecognized list is non-empty. -/
def scanDiagnostic (sc : DirectoryScanner) (path : String)
    (entries : List Entry) : Option String :=
  let u := scanUnrecognized sc entries
  if u.isEmpty then none
  else some ("Skipped unrecognized entries in " ++ path ++ ": "
    ++ String.intercalate ", " u)

theorem mem_insort (a h : PathElementHandler) (l : List PathElementHandler) :
    a ∈ insort h l ↔ a = h ∨ a ∈ l := by
  induction l with
  | nil => simp [insort]
  | cons h2 tl ih =>
    by_cases hc : h.rank < h2.rank
    · simp [insort, hc]
    · simp [insort, hc, ih]
      tauto

theorem insort_perm (h : PathElementHandler) (l : List PathElementHandler) :
    List.Perm (insort h l) (h :: l) := by
  induction l with
  | nil => exact List.Perm.refl _
  | cons h2 tl ih =>
    by_cases hc : h.rank < h2.rank
    · rw [insort, if_pos hc]
    · rw [insort, if_neg hc]
      exact (ih.cons h2).trans (List.Perm.swap h h2 tl)

theorem insort_sorted (h : PathElementHandler) (l : List PathElementHandler)
    (hs : l.Sorted fun a b => a.rank ≤ b.rank) :
    (insort h l).Sorted fun a b => a.rank ≤ b.rank := by
  induction l with
  | nil => simp [insort]
  | cons h2 tl ih =>
    rw [List.sorted_cons] at hs
    by_cases hc : h.rank < h2.rank
    · rw [insort, if_pos hc, List.sorted_cons]
      refine ⟨?_, List.sorted_cons.mpr hs⟩
      intro b hb
      rcases List.mem_cons.mp hb with rfl | hb2
      · exact le_of_lt hc
      · exact le_trans (le_of_lt hc) (hs.1 b hb2)
    · rw [insort, if_neg hc, List.sorted_cons]
      refine ⟨?_, ih hs.2⟩
      intro b hb
      rcases (mem_insort b h tl).mp hb with rfl | hb2
      · exact not_lt.mp hc
      · exact hs.1 b hb2

theorem foldl_add_pools (hs : List PathElementHandler) (sc : DirectoryScanner) :
    List.Perm (hs.foldl DirectoryScanner.add sc).files
        ((hs.filter fun h => h.isForFiles) ++ sc.files) ∧
      List.Perm (hs.foldl DirectoryScanner.add sc).subdirectories
        ((hs.filter fun h => !h.isForFiles) ++ sc.subdirectories) := by
  induction hs generalizing sc with
  | nil => simp
  | cons h tl ih =>
    simp only [List.foldl_cons]
    by_cases hf : h.isForFiles = true
    · have hadd_f : (DirectoryScanner.add sc h).files = insort h sc.files := by
        simp [DirectoryScanner.add, hf]
      have hadd_d : (DirectoryScanner.add sc h).subdirectories = sc.subdirectories := by
        simp [DirectoryScanner.add, hf]
      constructor
      · refine (ih _).1.trans ?_
        rw [hadd_f, List.filter_cons_of_pos (by simpa using hf)]
        exact (List.Perm.append_left _ (insort_perm h sc.files)).trans List.perm_middle
      · refine (ih _).2.trans ?_
        rw [hadd_d, List.filter_cons_of_neg (by simp [hf])]
    · have hf2 : h.isForFiles = false := Bool.eq_false_iff.mpr hf
      have hadd_f : (DirectoryScanner.add sc h).files = sc.files := by
        simp [DirectoryScanner.add, hf2]
      have hadd_d : (DirectoryScanner.add sc h).subdirectories
          = insort h sc.subdirectories := by
        simp [DirectoryScanner.add, hf2]
      constructor
      · refine (ih _).1.trans ?_
        rw [hadd_f, List.filter_cons_of_neg (by simp [hf2])]
      · refine (ih _).2.trans ?_
        rw [hadd_d, List.filter_cons_of_pos (by simp [hf2])]
        exact (List.Perm.append_left _ (insort_perm h sc.subdirectories)).trans
          List.perm_middle

theorem foldl_add_sorted (hs : List PathElementHandler) (sc : DirectoryScanner)
    (h1 : sc.files.Sorted fun a b => a.rank ≤ b.rank)
    (h2 : sc.subdirectories.Sorted fun a b => a.rank ≤ b.rank) :
    ((hs.foldl DirectoryScanner.add sc).files.Sorted fun a b => a.rank ≤ b.rank) ∧
      ((hs.foldl DirectoryScanner.add sc).subdirectories.Sorted
        fun a b => a.rank ≤ b.rank) := by
  induction hs generalizing sc with
  | nil => exact ⟨h1, h2⟩
  | cons h tl ih =>
    simp only [List.foldl_cons]
    by_cases hf : h.isForFiles = true
    · exact ih _ (by simpa [DirectoryScanner.add, hf] using insort_sorted h sc.files h1)
        (by simpa [DirectoryScanner.add, hf] using h2)
    · have hf2 : h.isForFiles = false := Bool.eq_false_iff.mpr hf
      exact ih _ (by simpa [DirectoryScanner.add, hf2] using h1)
        (by simpa [DirectoryScanner.add, hf2] using
          insort_sorted h sc.subdirectories h2)

theorem buildScanner_files_perm (hs : List PathElementHandler) :
    List.Perm (buildScanner hs).files (hs.filter fun h => h.isForFiles) := by
  simpa using (foldl_add_pools hs ⟨[], []⟩).1

theorem buildScanner_subdirs_perm (hs : List PathElementHandler) :
    List.Perm (buildScanner hs).subdirectories
      (hs.filter fun h => !h.isForFiles) := by
  simpa using (foldl_add_pools hs ⟨[], []⟩).2

theorem buildScanner_files_sorted (hs : List PathElementHandler) :
    (buildScanner hs).files.Sorted fun a b => a.rank ≤ b.rank :=
  (foldl_add_sorted hs ⟨[], []⟩ (by simp) (by simp)).1

theorem buildScanner_subdirs_sorted (hs : List PathElementHandler) :
    (buildScanner hs).subdirectories.Sorted fun a b => a.rank ≤ b.rank :=
  (foldl_add_sorted hs ⟨[], []⟩ (by simp) (by simp)).2

theorem find?_min_rank (l : List PathElementHandler)
    (p : PathElementHandler → Bool)
    (hs : l.Sorted fun a b => a.rank ≤ b.rank) (h : PathElementHandler)
    (hf : l.find? p = some h) :
    ∀ h2 ∈ l, p h2 = true → h.rank ≤ h2.rank := by
  induction l with
  | nil => simp at hf
  | cons a tl ih =>
    rw [List.sorted_cons] at hs
    by_cases hp : p a = true
    · rw [List.find?_cons_of_pos _ hp, Option.some.injEq] at hf
      subst hf
      intro h2 hmem hph2
      rcases List.mem_cons.mp hmem with rfl | hmem2
      · exact le_refl _
      · exact hs.1 h2 hmem2
    · rw [List.find?_cons_of_neg _ hp] at hf
      intro h2 hmem hph2
      rcases List.mem_cons.mp hmem with rfl | hmem2
      · exact absurd hph2 hp
      · exact ih hs.2 hf h2 hmem2 hph2

/-- First-match dispatch over a rank-sorted pool with pairwise-distinct
ranks: the pool is strictly increasing in rank, and a rank-0 member that
matches is the one find? selects. -/
theorem pool_dispatch (pool : List PathElementHandler) (nm : String)
    (h0 : PathElementHandler)
    (hsort : pool.Sorted fun a b => a.rank ≤ b.rank)
    (hnd : (pool.map PathElementHandler.rank).Nodup)
    (hmem : h0 ∈ pool) (hrank : h0.rank = 0) (hcall : h0.call nm = true) :
    (pool.Pairwise fun a b => a.rank < b.rank) ∧
      pool.find? (fun h => h.call nm) = some h0 := by
  have hne : pool.Pairwise fun a b => a.rank ≠ b.rank := by
    have hnd2 : (pool.map PathElementHandler.rank).Pairwise (· ≠ ·) := hnd
    exact List.pairwise_map.mp hnd2
  constructor
  · exact (hsort.and hne).imp fun hab => lt_of_le_of_ne hab.1 hab.2
  · cases hfind : pool.find? (fun h => h.call nm) with
    | none =>
      exact absurd hcall (by simpa using List.find?_eq_none.mp hfind h0 hmem)
    | some h =>
      have hcallh : h.call nm = true := by simpa using List.find?_some hfind
      have hmemh : h ∈ pool := List.mem_of_find?_eq_some hfind
      have hle : h.rank ≤ h0.rank :=
        find?_min_rank pool _ hsort h hfind h0 hmem hcall
      have hzero : h.rank = h0.rank := by omega
      have heq : h = h0 := List.inj_on_of_nodup_map hnd hmemh hmem hzero
      rw [heq]

/-- Claim C8: for any set of handlers with pairwise-distinct ranks added to
a DirectoryScanner in any order, the pool the scan selects for a file or
directory entry is strictly increasing in rank — so handlers are attempted
in strictly increasing rank order and the scan stops at the first that
returns True — and a rank-0 handler of that pool that matches the entry is
always the one the scan hands the entry to, winning over every higher-rank
handler that could also match it. -/
theorem scanner_rank_dispatch (hs : List PathElementHandler) (e : Entry)
    (h0 : PathElementHandler)
    (hdist : (hs.map PathElementHandler.rank).Nodup)
    (hkind : e.kind ≠ EntryKind.other)
    (hmem : h0 ∈ hs)
    (hpool : h0.isForFiles = (e.kind == EntryKind.file))
    (hrank : h0.rank = 0)
    (hcall : h0.call e.name = true) :
    ((poolFor (buildScanner hs) e.kind).Pairwise fun a b => a.rank < b.rank) ∧
      scanEntry (buildScanner hs) e = ScanOutcome.handled h0 := by
  have hsub : ∀ p : PathElementHandler → Bool,
      ((hs.filter p).map PathElementHandler.rank).Nodup := fun p =>
    List.Nodup.sublist (List.Sublist.map _ (List.filter_sublist hs)) hdist
  cases hk : e.kind with
  | other => exact absurd hk hkind
  | file =>
    have hpf : h0.isForFiles = true := by rw [hpool, hk]; rfl
    have hmem2 : h0 ∈ (buildScanner hs).files :=
      (buildScanner_files_perm hs).mem_iff.mpr
        (List.mem_filter.mpr ⟨hmem, hpf⟩)
    have hnd : ((buildScanner hs).files.map PathElementHandler.rank).Nodup :=
      (((buildScanner_files_perm hs).map PathElementHandler.rank).nodup_iff).mpr
        (hsub _)
    have hd := pool_dispatch (buildScanner hs).files e.name h0
      (buildScanner_files_sorted hs) hnd hmem2 hrank hcall
    refine ⟨by simpa [poolFor, hk] using hd.1, ?_⟩
    simp [scanEntry, hk, hd.2]
  | dir =>
    have hpf : h0.isForFiles = false := by rw [hpool, hk]; rfl
    have hmem2 : h0 ∈ (buildScanner hs).subdirectories :=
      (buildScanner_subdirs_perm hs).mem_iff.mpr
        (List.mem_filter.mpr ⟨hmem, by simp [hpf]⟩)
    have hnd : ((buildScanner hs).subdirectories.map PathElementHandler.rank).Nodup :=
      (((buildScanner_subdirs_perm hs).map PathElementHandler.rank).nodup_iff).mpr
        (hsub _)
    have hd := pool_dispatch (buildScanner hs).subdirectories e.name h0
      (buildScanner_subdirs_sorted hs) hnd hmem2 hrank hcall
    refine ⟨by simpa [poolFor, hk] using hd.1, ?_⟩
    simp [scanEntry, hk, hd.2]

theorem scanner_rank_dispatch_witness :
    ((poolFor
        (buildScanner
          [PathElementHandler.mk true 2 fun _ => true,
            PathElementHandler.mk true 0 fun nm => nm == "calib",
            PathElementHandler.mk false 1 fun _ => true])
        (Entry.mk "calib" EntryKind.file).kind).Pairwise
      fun a b => a.rank < b.rank) ∧
      scanEntry
          (buildScanner
            [PathElementHandler.mk true 2 fun _ => true,
              PathElementHandler.mk true 0 fun nm => nm == "calib",
              PathElementHandler.mk false 1 fun _ => true])
          (Entry.mk "calib" EntryKind.file)
        = ScanOutcome.handled (PathElementHandler.mk true 0 fun nm => nm == "calib") :=
  scanner_rank_dispatch
    [PathElementHandler.mk true 2 fun _ => true,
      PathElementHandler.mk true 0 fun nm => nm == "calib",
      PathElementHandler.mk false 1 fun _ => true]
    (Entry.mk "calib" EntryKind.file)
    (PathElementHandler.mk true 0 fun nm => nm == "calib")
    (by decide) (by decide)
    (List.mem_cons_of_mem _ (List.mem_cons_self _ _))
    rfl rfl rfl

/-- Claim C10: for every directory scan, an entry that is neither a file nor
a directory is skipped before any handler is tried and never contributes to
the unrecognized list; the list holds exactly the names of the file or
directory entries for which every handler of the selected pool returned
False, in directory order; and the end-of-scan diagnostic is emitted exactly
when that list is non-empty. -/
theorem scan_unrecognized_exact (sc : DirectoryScanner) (path : String)
    (entries : List Entry) :
    scanUnrecognized sc entries
        = (entries.filter fun e =>
            match e.kind with
            | EntryKind.other => false
            | EntryKind.file => sc.files.all fun h => !h.call e.name
            | EntryKind.dir => sc.subdirectories.all fun h => !h.call e.name).map
          Entry.name ∧
      (scanDiagnostic sc path entries = none ↔ scanUnrecognized sc entries = []) := by
  constructor
  · induction entries with
    | nil => rfl
    | cons e rest ih =>
      cases hk : e.kind with
      | other =>
        simpa [scanUnrecognized, scanEntry, hk] using ih
      | file =>
        cases hfind : sc.files.find? (fun h => h.call e.name) with
        | some h =>
          have hall : (sc.files.all fun h2 => !h2.call e.name) = false := by
            rw [List.all_eq_false]
            exact ⟨h, List.mem_of_find?_eq_some hfind,
              by simpa using List.find?_some hfind⟩
          simpa [scanUnrecognized, scanEntry, hk, hfind, hall] using ih
        | none =>
          have hall : (sc.files.all fun h2 => !h2.call e.name) = true := by
            rw [List.all_eq_true]
            intro h2 hmem
            simpa using List.find?_eq_none.mp hfind h2 hmem
          simpa [scanUnrecognized, scanEntry, hk, hfind, hall] using ih
      | dir =>
        cases hfind : sc.subdirectories.find? (fun h => h.call e.name) with
        | some h =>
          have hall : (sc.subdirectories.all fun h2 => !h2.call e.name) = false := by
            rw [List.all_eq_false]
            exact ⟨h, List.mem_of_find?_eq_some hfind,
              by simpa using List.find?_some hfind⟩
          simpa [scanUnrecognized, scanEntry, hk, hfind, hall] using ih
        | none =>
          have hall : (sc.subdirectories.all fun h2 => !h2.call e.name) = true := by
            rw [List.all_eq_true]
            intro h2 hmem
            simpa using List.find?_eq_none.mp hfind h2 hmem
          simpa [scanUnrecognized, scanEntry, hk, hfind, hall] using ih
  · simp [scanDiagnostic, List.isEmpty_iff]

end ObsBase
